import Mathlib

/-!
Verification development for the legal-document ingestion pipeline
(`src/ingestion.py`, `src/schema.py`, `src/parsers/pdf_parser.py`,
`src/parsers/xml_parser.py`).

Texts are modelled as `List Char`.  Python string methods (`strip`,
`lower`, slicing, `rfind`, `splitlines`, `title`, substring tests) are
embedded as executable functions below.  Where Python iterates over a
`set` (whose iteration order is unspecified), the model uses a `Finset`
or a deterministic first-occurrence dedup, with a comment at the spot;
no claim depends on such an order.  Loops whose progress argument is
arithmetic (the sliding-window chunker, regex-like scanners) are
embedded with an explicit fuel parameter equal to the input length,
which is always sufficient because every iteration consumes at least
one character (resp. advances the window start); this keeps every
definition computable by the kernel.
-/

/-- Convert a Lean string literal to the `List Char` text representation. -/
def chars (s : String) : List Char := s.data

/-- The whitespace class of Python `str.strip` / regex `\s` (ASCII part). -/
def pyIsSpace (c : Char) : Bool :=
  c == ' ' || c == '\t' || c == '\n' || c == '\r' || c == '\x0b' || c == '\x0c'

/-- Python `str.lower` (ASCII). -/
def pyLower (l : List Char) : List Char := l.map Char.toLower

/-- Python `str.strip()`: remove leading and trailing whitespace. -/
def pyStrip (l : List Char) : List Char :=
  ((l.dropWhile pyIsSpace).reverse.dropWhile pyIsSpace).reverse

/-- Python slice `text[s:e]` (clamped, `s ≤ e` case as used by the code). -/
def pySlice (l : List Char) (s e : Nat) : List Char := (l.take e).drop s

/-- Whether `small` occurs at the start of `big`. -/
def isPrefixL : List Char → List Char → Bool
  | [], _ => true
  | _ :: _, [] => false
  | a :: as, b :: bs => a == b && isPrefixL as bs

/-- Python `needle in hay` substring test. -/
def containsSub (hay needle : List Char) : Bool :=
  (List.range (hay.length + 1)).any (fun i => isPrefixL needle (hay.drop i))

/-- Python `text.split(sep)` for a one-character separator (keeps empties). -/
def splitOnChar (sep : Char) : List Char → List (List Char)
  | [] => [[]]
  | c :: rest =>
    if c == sep then [] :: splitOnChar sep rest
    else
      match splitOnChar sep rest with
      | [] => [[c]]
      | g :: gs => (c :: g) :: gs

/-- Worker for `pySplitlines`; `acc` is the current line reversed. -/
def splitlinesGo : List Char → List Char → List (List Char)
  | acc, [] => if acc.isEmpty then [] else [acc.reverse]
  | acc, '\r' :: '\n' :: rest => acc.reverse :: splitlinesGo [] rest
  | acc, '\n' :: rest => acc.reverse :: splitlinesGo [] rest
  | acc, '\r' :: rest => acc.reverse :: splitlinesGo [] rest
  | acc, c :: rest => splitlinesGo (c :: acc) rest

/-- Python `str.splitlines()` (the line breaks the inputs can contain). -/
def pySplitlines (l : List Char) : List (List Char) := splitlinesGo [] l

/-- Split a leading run of ASCII digits off a text (run, remainder). -/
def digitRun : List Char → List Char × List Char
  | [] => ([], [])
  | c :: rest =>
    if c.isDigit then
      let (r, rest') := digitRun rest
      (c :: r, rest')
    else ([], c :: rest)

/-- Regex word character (`\w` over ASCII): letters, digits, underscore. -/
def isWordChar (c : Char) : Bool := c.isAlphanum || c == '_'

/-- Python `list(set(xs))`.  Set iteration order is unspecified in Python;
modelled as first-occurrence dedup.  No claim depends on this order. -/
def listSet (l : List (List Char)) : List (List Char) :=
  l.foldl (fun acc x => if x ∈ acc then acc else acc ++ [x]) []

/-- Python `'\n'.join(parts)`. -/
def joinNL (parts : List (List Char)) : List Char :=
  (parts.intersperse (chars "\n")).flatten

/-- Python `'.'.join(parts)`. -/
def joinDots (parts : List (List Char)) : List Char :=
  (parts.intersperse (chars ".")).flatten

/-- Python `term.lower().replace(' ', '_')`. -/
def underscoreLower (l : List Char) : List Char :=
  (pyLower l).map (fun c => if c == ' ' then '_' else c)

/-- Worker for `pyTitleCase`: the flag records whether the previous
character was a cased letter. -/
def titleGo : List Char → Bool → List Char
  | [], _ => []
  | c :: rest, prevCased =>
    if c.isAlpha then
      (if prevCased then c.toLower else c.toUpper) :: titleGo rest true
    else c :: titleGo rest false

/-- Python `str.title()` (ASCII letters). -/
def pyTitleCase (l : List Char) : List Char := titleGo l false

/-- Decimal digits of a natural number, used for Python f-string `{i}`. -/
def natChars (n : Nat) : List Char := Nat.toDigits 10 n

/-- Python `text.rfind('.', lo, hi)`: the largest index `i` with
`lo ≤ i < hi`, `i < text.length` and `text[i] = '.'`, if any. -/
def rfindDot (text : List Char) (lo hi : Nat) : Option Nat :=
  ((List.range (min hi text.length)).filter
    (fun i => decide (lo ≤ i) && (text.getD i ' ' == '.'))).getLast?

/-! ## Data model (`src/schema.py`) -/

/-- `PartyRole` enum of `schema.py`. -/
inductive PartyRole where
  | seller | buyer | purchaser | vendor | contractor | lender
  | guarantor | trustee | agent | other
deriving DecidableEq

/-- `ClauseType` enum of `schema.py`. -/
inductive ClauseType where
  | parties | definitions | purchaseAndSale | price | adjustments | closing
  | conditionsPrecedent | representationsWarranties | covenants | indemnities
  | limitations | governingLaw | disputeResolution | notices | termination
  | forceMajeure | miscellaneous | other
deriving DecidableEq

/-- `Party` of `schema.py`. -/
structure PartyR where
  name : List Char
  role : PartyRole
  jurisdiction : Option (List Char) := none
  address : Option (List Char) := none
  entityType : Option (List Char) := none
deriving DecidableEq

/-- `Definition` of `schema.py`. -/
structure DefinitionR where
  term : List Char
  definition : List Char
  sectionId : Option (List Char) := none
deriving DecidableEq

/-- `Section` of `schema.py`.  `tags` is a Python list of strings. -/
structure SectionR where
  id : List Char
  title : List Char
  text : List Char
  clauseType : ClauseType
  tags : List (List Char) := []
  definitions : List (List Char) := []
  parentSection : Option (List Char) := none
  pageNumber : Option Nat := none
deriving DecidableEq

/-- A calendar date standing for Python `datetime` (year, month, day). -/
structure DateR where
  year : Nat
  month : Nat
  day : Nat
deriving DecidableEq

/-- `DocumentMetadata` of `schema.py`.  `processingDate` stands for the
wall-clock timestamp taken at construction; its value plays no role. -/
structure DocumentMetadataR where
  documentId : List Char
  title : List Char
  documentType : List Char
  jurisdiction : List Char
  governingLaw : Option (List Char) := none
  industry : List Char
  effectiveDate : Option DateR := none
  executionDate : Option DateR := none
  terminationDate : Option DateR := none
  parties : List PartyR := []
  sourceFile : List Char
  sourceFormat : List Char
  processingDate : Nat := 0
deriving DecidableEq

/-- `LegalDocument` of `schema.py`. -/
structure LegalDocumentR where
  metadata : DocumentMetadataR
  sections : List SectionR
  definitions : List DefinitionR
deriving DecidableEq

/-- `ChunkMetadata` of `schema.py`. -/
structure ChunkMetadataR where
  chunkId : List Char
  documentId : List Char
  sectionId : List Char
  chunkIndex : Nat
  chunkType : List Char
  tags : List (List Char) := []
  sourceCitation : List Char
  headingNumber : Option (List Char) := none
  headingLevel : Option Nat := none
  parentHeadingNumber : Option (List Char) := none
deriving DecidableEq

/-- `ProcessedChunk` of `schema.py`.  The embedding vector is populated
only by an external collaborator, never by this core. -/
structure ProcessedChunkR where
  metadata : ChunkMetadataR
  content : List Char
  embedding : Option (List Int) := none
deriving DecidableEq

/-- `LEGAL_TERM_SYNONYMS` of `schema.py` (insertion order preserved). -/
def LEGAL_TERM_SYNONYMS : List (List Char × List (List Char)) :=
  [ (chars "purchase_price_adjustment",
      [chars "true-up", chars "price adjustment", chars "purchase price true-up"]),
    (chars "material_adverse_effect",
      [chars "material adverse change", chars "MAC", chars "MAE"]),
    (chars "conditions_precedent",
      [chars "closing conditions", chars "conditions to closing"]),
    (chars "representations_warranties",
      [chars "reps and warranties", chars "representations", chars "warranties"]),
    (chars "indemnification",
      [chars "indemnity", chars "indemnities", chars "hold harmless"]),
    (chars "force_majeure",
      [chars "act of god", chars "unforeseeable circumstances"]),
    (chars "governing_law",
      [chars "applicable law", chars "choice of law"]),
    (chars "dispute_resolution",
      [chars "arbitration", chars "litigation", chars "mediation"]),
    (chars "termination",
      [chars "expiry", chars "expiration", chars "end"]),
    (chars "assignment",
      [chars "transfer", chars "novation"]) ]

/-- `INFRA_FINANCE_TERMS` of `schema.py` (insertion order preserved). -/
def INFRA_FINANCE_TERMS : List (List Char × List Char) :=
  [ (chars "CROD", chars "Contract Rate of Delivery"),
    (chars "transmission_service", chars "electrical transmission services"),
    (chars "point_of_delivery", chars "delivery point"),
    (chars "billing_demand", chars "maximum demand charge"),
    (chars "energy_charge", chars "electricity usage charge"),
    (chars "curtailment", chars "reduction in delivery"),
    (chars "liquidated_damages", chars "predetermined damages"),
    (chars "patronage", chars "cooperative member benefits"),
    (chars "operating_procedures", chars "operational guidelines") ]

/-! ## Terminology normalization (`ingestion.py`, `_normalize_tags`,
`_normalize_terminology`, `_normalize_document`) -/

/-- The canonical terms whose synonym lists have a case-insensitive
substring hit in `content` (`_normalize_tags`, first loop). -/
def synTagList (content : List Char) : List (List Char) :=
  (LEGAL_TERM_SYNONYMS.filter
      (fun p => p.2.any (fun syn => containsSub (pyLower content) (pyLower syn)))).map
    Prod.fst

/-- The abbreviation-derived tags (`_normalize_tags`, second loop):
for each glossary entry, a hit of abbreviation or expansion adds the
lower-cased, underscored abbreviation key. -/
def abbrevTagList (content : List Char) : List (List Char) :=
  (INFRA_FINANCE_TERMS.filter
      (fun p => containsSub (pyLower content) (pyLower p.1) ||
                containsSub (pyLower content) (pyLower p.2))).map
    (fun p => underscoreLower p.1)

/-- The synonym hits as a set. -/
def synTags (content : List Char) : Finset (List Char) :=
  (synTagList content).toFinset

/-- The abbreviation hits as a set. -/
def abbrevTags (content : List Char) : Finset (List Char) :=
  (abbrevTagList content).toFinset

/-- `_normalize_tags`: builds `set(existing_tags)`, adds the synonym and
abbreviation hits, and returns `list(tags)`.  The Python list is in
unspecified set order; modelled as a deterministic first-occurrence
dedup carrying exactly that set. -/
def normalizeTagsL (existing : List (List Char)) (content : List Char) :
    List (List Char) :=
  listSet (existing ++ synTagList content ++ abbrevTagList content)

/-- Worker for `replaceCI`; fuel is consumed once per emitted character
or replacement, so `hay.length` fuel always suffices. -/
def goReplF : Nat → List Char → List Char → List Char → List Char
  | 0, _, _, hay => hay
  | fuel + 1, needle, repl, hay =>
    match hay with
    | [] => []
    | c :: rest =>
      if needle.length == 0 then c :: rest
      else if pyLower (hay.take needle.length) == pyLower needle then
        repl ++ goReplF fuel needle repl (hay.drop needle.length)
      else c :: goReplF fuel needle repl rest

/-- Python `re.sub(re.escape(needle), repl, hay, flags=IGNORECASE)`:
replace every case-insensitive occurrence, left to right,
non-overlapping.  The empty needle inserts `repl` at every position,
as `re.sub` does (unreachable for the synonym tables, which contain no
empty synonym). -/
def replaceCI (needle repl hay : List Char) : List Char :=
  if needle.isEmpty then repl ++ (hay.map (fun c => c :: repl)).flatten
  else goReplF hay.length needle repl hay

/-- `_normalize_terminology`: for each canonical term, in table order,
replace each synonym (case-insensitive) by the canonical term with
underscores turned into spaces and title-cased; substitutions are
sequential, later rules see earlier rewrites. -/
def normalizeTerminology (text : List Char) : List Char :=
  LEGAL_TERM_SYNONYMS.foldl
    (fun acc p =>
      p.2.foldl
        (fun acc2 syn =>
          replaceCI syn (pyTitleCase (p.1.map (fun c => if c == '_' then ' ' else c))) acc2)
        acc)
    text

/-- `_normalize_document`: first loop rewrites every section's tags from
its (original) text, second loop rewrites every section's text; the
mutated document is returned. -/
def normalizeDocument (doc : LegalDocumentR) : LegalDocumentR :=
  let d1 := { doc with
    sections := doc.sections.map
      (fun s : SectionR => { s with tags := normalizeTagsL s.tags s.text }) }
  { d1 with
    sections := d1.sections.map
      (fun s : SectionR => { s with text := normalizeTerminology s.text }) }

/-! ## Chunking (`ingestion.py`, `chunk_document` and helpers) -/

/-- `self.max_chunk_size` (characters). -/
def maxChunkSize : Nat := 1000

/-- `self.chunk_overlap` (characters). -/
def chunkOverlap : Nat := 100

/-- One iteration's window end in `_split_text_with_overlap`:
`end = start + max_chunk_size`; if that is strictly inside the text,
search `[start + max_chunk_size - 100, end)` backwards for a period and,
when one is found past `start`, trim the window to just after it. -/
def windowEnd (text : List Char) (start : Nat) : Nat :=
  if start + maxChunkSize < text.length then
    match rfindDot text (start + maxChunkSize - 100) (start + maxChunkSize) with
    | some se => if start < se then se + 1 else start + maxChunkSize
    | none => start + maxChunkSize
  else start + maxChunkSize

/-- The `(start, end)` windows visited by the `_split_text_with_overlap`
loop, from a given start.  The loop advances `start` to `end − overlap`
and stops once `start ≥ len(text)`.  Every iteration advances the start
by at least `801`, so `text.length + 1` fuel (used by `splitWindows`)
always suffices; fuel `0` is never reached from the wrapper. -/
def splitWindowsF : Nat → List Char → Nat → List (Nat × Nat)
  | 0, _, _ => []
  | fuel + 1, text, start =>
    if start < text.length then
      let e := windowEnd text start
      if text.length ≤ e - chunkOverlap then [(start, e)]
      else (start, e) :: splitWindowsF fuel text (e - chunkOverlap)
    else []

/-- All windows of `_split_text_with_overlap` on `text`. -/
def splitWindows (text : List Char) : List (Nat × Nat) :=
  splitWindowsF (text.length + 1) text 0

/-- `_split_text_with_overlap`: each window's slice is stripped and
appended when non-empty. -/
def splitTextWithOverlap (text : List Char) : List (List Char) :=
  ((splitWindows text).map (fun w => pyStrip (pySlice text w.1 w.2))).filter
    (fun c => !c.isEmpty)

/-! ## Hierarchical heading extraction (`ingestion.py`,
`_extract_heading_meta` and the id test in `_chunk_section`) -/

/-- Anchored test for `re.match(r"^\d+(?:\.\d+)+$", s)`: at least two
dot-separated non-empty digit runs and nothing else. -/
def isDottedNumeric (l : List Char) : Bool :=
  decide (2 ≤ (splitOnChar '.' l).length) &&
  (splitOnChar '.' l).all (fun r => !r.isEmpty && r.all Char.isDigit)

/-- Collect further `.digits` groups after the first digit run, for the
prefix pattern `\d+(?:\.\d+)+`.  Each iteration consumes at least two
characters, so fuel = input length suffices. -/
def moreRunsF : Nat → List Char → List (List Char) × List Char
  | 0, l => ([], l)
  | fuel + 1, l =>
    match l with
    | '.' :: rest =>
      match digitRun rest with
      | ([], _) => ([], l)
      | (c :: cs, rest') =>
        let (rs, rest'') := moreRunsF fuel rest'
        ((c :: cs) :: rs, rest'')
    | _ => ([], l)

/-- Regex word-boundary check after a candidate match: satisfied at end
of input or before a non-word character. -/
def boundaryAfter : List Char → Bool
  | [] => true
  | c :: _ => !isWordChar c

/-- `re.match(r"^(\d+(?:\.\d+)+)\b", line)`: the matched group, if any.
The digit runs are maximal (shortening one would place the boundary
before a digit, a word character, so backtracking never shrinks a run);
if the boundary fails after the last run the regex backtracks by
dropping that run (the boundary before the separating dot then always
holds), which needs at least two remaining `.digits` groups. -/
def matchDotted (l : List Char) : Option (List Char) :=
  match digitRun l with
  | ([], _) => none
  | (c :: cs, rest) =>
    let (rs, rest') := moreRunsF rest.length rest
    if rs.isEmpty then none
    else if boundaryAfter rest' then some (joinDots ((c :: cs) :: rs))
    else if 2 ≤ rs.length then some (joinDots ((c :: cs) :: rs.dropLast))
    else none

/-- `_extract_heading_meta`: look at the first one or two non-blank
stripped lines for a dotted heading number; derive
`(number, level, parent)` from the dot-separated components. -/
def extractHeadingMeta (text : List Char) :
    Option (List Char × Nat × Option (List Char)) :=
  match (pySplitlines text).map pyStrip |>.filter (fun l => !l.isEmpty) with
  | [] => none
  | l0 :: restLines =>
    let m :=
      match matchDotted l0 with
      | some g => some g
      | none =>
        match restLines with
        | l1 :: _ => matchDotted l1
        | [] => none
    match m with
    | none => none
    | some num =>
      let parts := splitOnChar '.' num
      some (num, parts.length, if 1 < parts.length then some (joinDots parts.dropLast) else none)

/-- The `(heading_number, heading_level, parent_heading)` triple computed
at the top of `_chunk_section`: prefer a stripped `Section.id` that is
already a dotted hierarchical number, else parse the section text. -/
def sectionHeadingMeta (s : SectionR) :
    Option (List Char) × Option Nat × Option (List Char) :=
  if isDottedNumeric (pyStrip s.id) then
    (some (pyStrip s.id), some ((splitOnChar '.' (pyStrip s.id)).length),
      if 1 < (splitOnChar '.' (pyStrip s.id)).length then
        some (joinDots ((splitOnChar '.' (pyStrip s.id)).dropLast))
      else none)
  else
    match extractHeadingMeta s.text with
    | some m => (some m.1, some m.2.1, m.2.2)
    | none => (none, none, none)

/-! ## Chunk construction (`ingestion.py`, `_chunk_section`,
`_chunk_definition`, `chunk_document`) -/

/-- One clause chunk of `_chunk_section` (chunk id
`f"{doc_id}_{section.id}_{i}"`, citation
`f"{title}, Section {section.id}"`). -/
def mkClauseChunk (doc : LegalDocumentR) (s : SectionR)
    (hmeta : Option (List Char) × Option Nat × Option (List Char))
    (i : Nat) (content : List Char) : ProcessedChunkR :=
  { metadata :=
    { chunkId := doc.metadata.documentId ++ chars "_" ++ s.id ++ chars "_" ++ natChars i
      documentId := doc.metadata.documentId
      sectionId := s.id
      chunkIndex := i
      chunkType := chars "clause"
      tags := s.tags
      sourceCitation := doc.metadata.title ++ chars ", Section " ++ s.id
      headingNumber := hmeta.1
      headingLevel := hmeta.2.1
      parentHeadingNumber := hmeta.2.2 }
    content := content }

/-- `_chunk_section`: a section whose text is at most `max_chunk_size`
characters becomes a single chunk holding the whole text at index `0`;
a longer one becomes one chunk per emitted window of
`_split_text_with_overlap`, indexed in order. -/
def chunkSection (doc : LegalDocumentR) (s : SectionR) : List ProcessedChunkR :=
  if s.text.length ≤ maxChunkSize then
    [mkClauseChunk doc s (sectionHeadingMeta s) 0 s.text]
  else
    (splitTextWithOverlap s.text).enum.map
      (fun p => mkClauseChunk doc s (sectionHeadingMeta s) p.1 p.2)

/-- `_chunk_definition`, abstracted over the 8-hex-character digest
`self._hash_string` (an external-library `md5` call; any function of the
term).  Note `definition.section_id or "definitions"`: Python `or`
replaces both a missing and an *empty* section id by the sentinel. -/
def chunkDefinition (md5hex8 : List Char → List Char) (doc : LegalDocumentR)
    (defn : DefinitionR) : ProcessedChunkR :=
  { metadata :=
    { chunkId := doc.metadata.documentId ++ chars "_def_" ++ md5hex8 defn.term
      documentId := doc.metadata.documentId
      sectionId :=
        match defn.sectionId with
        | none => chars "definitions"
        | some s => if s.isEmpty then chars "definitions" else s
      chunkIndex := 0
      chunkType := chars "definition"
      tags := [chars "definition", underscoreLower defn.term]
      sourceCitation := doc.metadata.title ++ chars ", Definition: " ++ defn.term
      headingNumber := none
      headingLevel := none
      parentHeadingNumber := none }
    content := chars "\"" ++ defn.term ++ chars "\" means " ++ defn.definition }

/-- `chunk_document`: all section chunks in document order, then one
definition chunk per `Definition`. -/
def chunkDocument (md5hex8 : List Char → List Char) (doc : LegalDocumentR) :
    List ProcessedChunkR :=
  (doc.sections.map (chunkSection doc)).flatten ++
    doc.definitions.map (chunkDefinition md5hex8 doc)

/-! ## Clause classification (`pdf_parser._classify_clause_type`,
`xml_parser._classify_clause_type`) -/

/-- `pdf_parser._classify_clause_type(title)`: ordered keyword rules on
the lower-cased title, first match wins, `Other` as fallback. -/
def classifyClausePDF (title : List Char) : ClauseType :=
  let t := pyLower title
  if containsSub t (chars "purchase") || containsSub t (chars "sale") then .purchaseAndSale
  else if containsSub t (chars "price") || containsSub t (chars "payment") then .price
  else if containsSub t (chars "closing") then .closing
  else if containsSub t (chars "condition") then .conditionsPrecedent
  else if containsSub t (chars "representation") || containsSub t (chars "warrant") then
    .representationsWarranties
  else if containsSub t (chars "covenant") then .covenants
  else if containsSub t (chars "indemnif") then .indemnities
  else if containsSub t (chars "governing law") then .governingLaw
  else if containsSub t (chars "dispute") || containsSub t (chars "arbitration") then
    .disputeResolution
  else if containsSub t (chars "notice") then .notices
  else if containsSub t (chars "termination") then .termination
  else .other

/-- `xml_parser._classify_clause_type(title, content)`: ordered keyword
rules on the lower-cased title; the source computes `content_lower` but
no rule consults it. -/
def classifyClauseXML (title content : List Char) : ClauseType :=
  let t := pyLower title
  let _contentLower := pyLower content
  if containsSub t (chars "rate") || containsSub t (chars "price") then .price
  else if containsSub t (chars "delivery") || containsSub t (chars "sale") then .purchaseAndSale
  else if containsSub t (chars "governing law") then .governingLaw
  else if containsSub t (chars "notice") then .notices
  else if containsSub t (chars "term") || containsSub t (chars "termination") then .termination
  else if containsSub t (chars "assignment") then .miscellaneous
  else if containsSub t (chars "audit") then .covenants
  else if containsSub t (chars "continuity") || containsSub t (chars "service") then .covenants
  else .other

/-- `pdf_parser._extract_tags_from_title`. -/
def extractTagsFromTitle (title : List Char) : List (List Char) :=
  let t := pyLower title
  (if containsSub t (chars "price") then [chars "pricing"] else []) ++
  (if containsSub t (chars "closing") then [chars "closing"] else []) ++
  (if containsSub t (chars "condition") then [chars "conditions"] else []) ++
  (if containsSub t (chars "indemnif") then [chars "indemnification"] else []) ++
  (if containsSub t (chars "termination") then [chars "termination"] else [])

/-! ## PDF structural segmentation (`pdf_parser._extract_sections` and
the regex helpers it relies on) -/

/-- Regex `^(\d+)\.\s+([A-Z][^.]+)\.` ("1. SECTION TITLE."): the two
captured groups.  The greedy `[^.]+` stops exactly at the next period,
which the pattern then requires. -/
def matchP1 (l : List Char) : Option (List Char × List Char) :=
  match digitRun l with
  | ([], _) => none
  | (d :: ds, rest) =>
    match rest with
    | '.' :: rest2 =>
      let ws := rest2.takeWhile pyIsSpace
      if ws.isEmpty then none
      else
        match rest2.drop ws.length with
        | c :: rest4 =>
          if c.isUpper then
            let body := rest4.takeWhile (fun ch => ch != '.')
            if body.isEmpty then none
            else
              match rest4.drop body.length with
              | '.' :: _ => some (d :: ds, c :: body)
              | _ => none
          else none
        | [] => none
    | _ => none

/-- Regex `^(\d+\.\d+)\s+([A-Z][^.]+)` ("1.1 Subsection Title"): the two
captured groups.  Both digit runs are maximal (shrinking one leaves a
digit where `\s` or `\.` is required, so backtracking never helps). -/
def matchP2 (l : List Char) : Option (List Char × List Char) :=
  match digitRun l with
  | ([], _) => none
  | (d :: ds, rest) =>
    match rest with
    | '.' :: rest2 =>
      match digitRun rest2 with
      | ([], _) => none
      | (e :: es, rest3) =>
        let ws := rest3.takeWhile pyIsSpace
        if ws.isEmpty then none
        else
          match rest3.drop ws.length with
          | c :: rest5 =>
            if c.isUpper then
              let body := rest5.takeWhile (fun ch => ch != '.')
              if body.isEmpty then none
              else some ((d :: ds) ++ chars "." ++ (e :: es), c :: body)
            else none
          | [] => none
    | _ => none

/-- Regex `^([A-Z]+)\.\s+([A-Z][^.]+)` ("A. Section Title"): the two
captured groups. -/
def matchP3 (l : List Char) : Option (List Char × List Char) :=
  let caps := l.takeWhile Char.isUpper
  if caps.isEmpty then none
  else
    match l.drop caps.length with
    | '.' :: rest2 =>
      let ws := rest2.takeWhile pyIsSpace
      if ws.isEmpty then none
      else
        match rest2.drop ws.length with
        | c :: rest4 =>
          if c.isUpper then
            let body := rest4.takeWhile (fun ch => ch != '.')
            if body.isEmpty then none
            else some (caps, c :: body)
          else none
        | [] => none
    | _ => none

/-- `self.section_patterns` tried in order, first match wins. -/
def matchSectionPattern (l : List Char) : Option (List Char × List Char) :=
  match matchP1 l with
  | some m => some m
  | none =>
    match matchP2 l with
    | some m => some m
    | none => matchP3 l

/-- `pdf_parser._find_page_number`: 1-based index of the first page text
containing the line. -/
def findPageNumber (line : List Char) (pages : List (List Char)) : Option Nat :=
  match pages.findIdx? (fun p => containsSub p line) with
  | some i => some (i + 1)
  | none => none

/-- Worker for the `re.findall(r'"([A-Z][^"]*)"', text)` scan; on a
failed candidate the scan restarts one character past the opening
quote, as `findall` does.  Fuel = input length suffices (at least one
character is consumed per step). -/
def findQuotedCapsF : Nat → List Char → List (List Char)
  | 0, _ => []
  | _ + 1, [] => []
  | fuel + 1, '"' :: rest =>
    match rest with
    | c :: rest2 =>
      if c.isUpper then
        let body := rest2.takeWhile (fun ch => ch != '"')
        match rest2.drop body.length with
        | '"' :: rest4 => (c :: body) :: findQuotedCapsF fuel rest4
        | _ => findQuotedCapsF fuel rest
      else findQuotedCapsF fuel rest
    | [] => []
  | fuel + 1, _ :: rest => findQuotedCapsF fuel rest

/-- `re.findall(r'"([A-Z][^"]*)"', text)`. -/
def findQuotedCaps (l : List Char) : List (List Char) := findQuotedCapsF l.length l

/-- Worker for the `re.findall(r'\b([A-Z]{2,})\b', text)` scan: maximal
uppercase runs of length at least two with word boundaries on both
sides (`prev` is the previous character, if any). -/
def capsRunsF : Nat → Option Char → List Char → List (List Char)
  | 0, _, _ => []
  | _ + 1, _, [] => []
  | fuel + 1, prev, c :: rest =>
    let boundaryOk := match prev with | none => true | some p => !isWordChar p
    if c.isUpper && boundaryOk then
      let runTail := rest.takeWhile Char.isUpper
      let rest' := rest.drop runTail.length
      let nextOk := match rest'.head? with | none => true | some d => !isWordChar d
      if 1 ≤ runTail.length && nextOk then
        (c :: runTail) :: capsRunsF fuel (some ((c :: runTail).getLast (by simp))) rest'
      else capsRunsF fuel (some c) rest
    else capsRunsF fuel (some c) rest

/-- `re.findall(r'\b([A-Z]{2,})\b', text)`. -/
def capsRuns (l : List Char) : List (List Char) := capsRunsF l.length none l

/-- `pdf_parser._extract_referenced_definitions`: quoted capitalized
terms plus all-caps words, deduplicated via `list(set(...))`. -/
def extractRefDefsPDF (text : List Char) : List (List Char) :=
  listSet (findQuotedCaps text ++ capsRuns text)

/-- Loop state of `pdf_parser._extract_sections`. -/
structure PdfSegState where
  sections : List SectionR
  current : Option SectionR
  content : List (List Char)
  counter : Nat

/-- One line of the `_extract_sections` loop.  On a heading match the
current section is emitted *as it stands* (its `text` is still the
empty string it was created with) and a fresh section is opened; a
non-heading line is appended to the accumulator only. -/
def pdfStep (pages : List (List Char)) (st : PdfSegState) (rawLine : List Char) :
    PdfSegState :=
  let line := pyStrip rawLine
  if line.isEmpty then st
  else
    match matchSectionPattern line with
    | some (g1, g2) =>
      let emitted :=
        match st.current with
        | some sec => st.sections ++ [sec]
        | none => st.sections
      let title := pyStrip g2
      { sections := emitted
        current := some
          { id := g1
            title := title
            text := []
            clauseType := classifyClausePDF title
            tags := extractTagsFromTitle title
            definitions := []
            parentSection := none
            pageNumber := findPageNumber line pages }
        content := [line]
        counter := st.counter + 1 }
    | none =>
      match st.current with
      | some _ => { st with content := st.content ++ [line] }
      | none => st

/-- `pdf_parser._extract_sections`: fold the stripped lines through
`pdfStep`; at end of input the final open section gets its accumulated
text (and referenced definitions) before being emitted — only that
final section does. -/
def extractSectionsPDF (text : List Char) (pages : List (List Char)) : List SectionR :=
  let st := (splitOnChar '\n' text).foldl (pdfStep pages) ⟨[], none, [], 0⟩
  match st.current with
  | some sec =>
    st.sections ++
      [{ sec with
          text := joinNL st.content
          definitions := extractRefDefsPDF (joinNL st.content) }]
  | none => st.sections

/-! ## Claim-side definitions and concrete inputs -/

/-- Modelled from the spec: the reconstruction the coverage property
speaks about — concatenate the emitted chunk contents, removing from
each chunk after the first its fixed-size (`chunk_overlap`) overlap
with its predecessor. -/
def reconFromChunks : List (List Char) → List Char
  | [] => []
  | c :: cs => c ++ (cs.map (fun d => d.drop chunkOverlap)).flatten

/-- Reconstruction from the raw window ranges: each window after the
first contributes only the part past its predecessor's end. -/
def reconW (text : List Char) : List (Nat × Nat) → List Char
  | [] => []
  | [w] => pySlice text w.1 w.2
  | w1 :: w2 :: ws => pySlice text w1.1 w1.2 ++ (reconW text (w2 :: ws)).drop (w1.2 - w2.1)

/-- A stand-in for the md5-derived 8-hex digest, used to instantiate
theorems that hold for every digest function. -/
def hashStub : List Char → List Char := fun _ => chars "00000000"

/-- A small concrete document used to instantiate theorems. -/
def exampleDoc : LegalDocumentR :=
  { metadata :=
    { documentId := chars "doc1"
      title := chars "Example Agreement"
      documentType := chars "Purchase Agreement"
      jurisdiction := chars "US"
      industry := chars "General"
      sourceFile := chars "doc1.pdf"
      sourceFormat := chars "PDF" }
    sections := []
    definitions := [] }

/-- A section with a dotted hierarchical identifier. -/
def secDotted : SectionR :=
  { id := chars "3.1", title := chars "Price", text := chars "The price is fixed."
    clauseType := .price }

/-- A section whose identifier is the single-component number `5` and
whose text carries no dotted heading. -/
def secFive : SectionR :=
  { id := chars "5", title := chars "Notices", text := chars "hello world"
    clauseType := .notices }

/-- A section whose text is a single space (blank after stripping). -/
def secBlankText : SectionR :=
  { id := chars "9", title := chars "Misc", text := chars " ", clauseType := .other }

/-- A section whose text is empty. -/
def secEmptyText : SectionR :=
  { id := chars "9", title := chars "Misc", text := [], clauseType := .other }

/-- A 1001-character section text: 900 letters then 101 spaces.  The
second sliding window strips to nothing and is discarded. -/
def secTailSpaces : SectionR :=
  { id := chars "7", title := chars "Covenants"
    text := List.replicate 900 'a' ++ List.replicate 101 ' '
    clauseType := .covenants }

/-- A 1001-character section text with no whitespace at all. -/
def secNoWs1001 : SectionR :=
  { id := chars "7", title := chars "Covenants", text := List.replicate 1001 'a'
    clauseType := .covenants }

/-- A 1001-character text starting with a space: the leading space is
stripped from the first chunk and belongs to no later chunk. -/
def tLeadingSpace : List Char := ' ' :: List.replicate 1000 'a'

/-- A definition whose `section_id` is present but empty — Python's
falsy test sends it to the `"definitions"` sentinel bucket. -/
def defnEmptySection : DefinitionR :=
  { term := chars "Term", definition := chars "its meaning", sectionId := some [] }

/-- The two-heading PDF text on which the segmenter drops the first
section's accumulated body. -/
def pdfTwoHeadings : List Char :=
  chars "1. PARTIES.\nThe parties are listed below.\n2. PRICE AND PAYMENT.\nThe price is fixed."

/-! ## Helper lemmas: lists and stripping -/

/-- An element returned by `getLast?` is a member of the list. -/
theorem getLastQ_mem {α : Type _} : ∀ (l : List α) (a : α), l.getLast? = some a → a ∈ l := by
  intro l
  induction l with
  | nil => intro a h; simp at h
  | cons x t ih =>
    intro a h
    cases t with
    | nil =>
      simp [List.getLast?] at h
      simp [h]
    | cons y u =>
      rw [List.getLast?_cons_cons] at h
      exact List.mem_cons_of_mem _ (ih a h)

/-- Gluing a clipped slice with the remaining tail. -/
theorem drop_take_drop {α : Type _} (l : List α) (s e : Nat) (h : s ≤ e) :
    (l.take e).drop s ++ l.drop e = l.drop s := by
  have h2 : (l.drop s).drop (e - s) = l.drop e := by
    rw [List.drop_drop]
    congr 1
    omega
  rw [List.drop_take, ← h2, List.take_append_drop]

/-- The head of `dropWhile p l` does not satisfy `p`. -/
theorem head_dropWhile_false {α : Type _} (p : α → Bool) :
    ∀ (l : List α) (x : α), (List.dropWhile p l).head? = some x → p x = false := by
  intro l
  induction l with
  | nil => intro x h; simp [List.dropWhile] at h
  | cons a t ih =>
    intro x h
    rw [List.dropWhile_cons] at h
    by_cases hpa : p a = true
    · rw [if_pos hpa] at h
      exact ih x h
    · rw [if_neg hpa] at h
      simp at h
      rw [← h]
      simpa using hpa

/-- `dropWhile` is the identity when the head does not satisfy `p`. -/
theorem dropWhile_eq_self_of_head {α : Type _} (p : α → Bool) (l : List α)
    (h : ∀ x, l.head? = some x → p x = false) : List.dropWhile p l = l := by
  cases l with
  | nil => rfl
  | cons a t =>
    rw [List.dropWhile_cons, if_neg]
    simp [h a rfl]

/-- A non-empty `dropWhile` keeps the last element of the list. -/
theorem getLast_dropWhile_eq {α : Type _} (p : α → Bool) :
    ∀ (l : List α), List.dropWhile p l ≠ [] →
      (List.dropWhile p l).getLast? = l.getLast? := by
  intro l
  induction l with
  | nil => intro h; exact absurd rfl h
  | cons a t ih =>
    intro h
    rw [List.dropWhile_cons] at h ⊢
    by_cases hpa : p a = true
    · rw [if_pos hpa] at h ⊢
      have ht : t ≠ [] := by
        intro e
        subst e
        simp [List.dropWhile] at h
      rw [ih h]
      cases t with
      | nil => exact absurd rfl ht
      | cons b u => rw [List.getLast?_cons_cons]
    · rw [if_neg hpa]

/-- The last character of a stripped text is not whitespace. -/
theorem pyStrip_getLast (l : List Char) :
    ∀ x, (pyStrip l).getLast? = some x → pyIsSpace x = false := by
  intro x h
  unfold pyStrip at h
  rw [List.getLast?_reverse] at h
  exact head_dropWhile_false pyIsSpace _ x h

/-- The first character of a stripped text is not whitespace. -/
theorem pyStrip_head (l : List Char) :
    ∀ x, (pyStrip l).head? = some x → pyIsSpace x = false := by
  intro x h
  unfold pyStrip at h
  rw [List.head?_reverse] at h
  have hne : List.dropWhile pyIsSpace (List.dropWhile pyIsSpace l).reverse ≠ [] := by
    intro he
    rw [he] at h
    simp at h
  rw [getLast_dropWhile_eq pyIsSpace _ hne, List.getLast?_reverse] at h
  exact head_dropWhile_false pyIsSpace _ x h

/-- Stripping is the identity on a text with clean ends. -/
theorem pyStrip_eq_self (l : List Char)
    (h1 : ∀ x, l.head? = some x → pyIsSpace x = false)
    (h2 : ∀ x, l.getLast? = some x → pyIsSpace x = false) : pyStrip l = l := by
  unfold pyStrip
  rw [dropWhile_eq_self_of_head pyIsSpace l h1,
      dropWhile_eq_self_of_head pyIsSpace l.reverse
        (by intro x hx; rw [List.head?_reverse] at hx; exact h2 x hx),
      List.reverse_reverse]

/-- Stripping is idempotent. -/
theorem pyStrip_idem (l : List Char) : pyStrip (pyStrip l) = pyStrip l :=
  pyStrip_eq_self _ (pyStrip_head l) (pyStrip_getLast l)

/-- A whitespace-only text strips to nothing. -/
theorem pyStrip_eq_nil_of_all (l : List Char)
    (h : ∀ c ∈ l, pyIsSpace c = true) : pyStrip l = [] := by
  unfold pyStrip
  rw [List.dropWhile_eq_nil_iff.mpr h]
  simp

/-- A text that strips to nothing is whitespace-only. -/
theorem all_ws_of_pyStrip_eq_nil (l : List Char)
    (h : pyStrip l = []) : ∀ c ∈ l, pyIsSpace c = true := by
  unfold pyStrip at h
  rw [List.reverse_eq_nil_iff, List.dropWhile_eq_nil_iff] at h
  intro c hc
  have hsplit := List.takeWhile_append_dropWhile pyIsSpace l
  rw [← hsplit] at hc
  rcases List.mem_append.mp hc with hmem | hmem
  · exact List.mem_takeWhile_imp hmem
  · exact h c (List.mem_reverse.mpr hmem)

/-- Stripping is the identity on a whitespace-free text. -/
theorem pyStrip_eq_self_of_no_ws (l : List Char)
    (h : ∀ c ∈ l, pyIsSpace c = false) : pyStrip l = l := by
  refine pyStrip_eq_self l ?_ ?_
  · intro x hx
    cases l with
    | nil => simp at hx
    | cons a t =>
      simp at hx
      exact hx ▸ h a (List.mem_cons_self a t)
  · intro x hx
    exact h x (getLastQ_mem l x hx)

/-- Every character of a clipped slice is a character of the text. -/
theorem mem_pySlice {c : Char} {l : List Char} {s e : Nat}
    (h : c ∈ pySlice l s e) : c ∈ l := by
  unfold pySlice at h
  exact ((List.drop_sublist s (l.take e)).trans (List.take_sublist e l)).mem h

/-! ## Helper lemmas: the sliding window -/

/-- A found period index lies in the requested range. -/
theorem rfindDot_bounds {text : List Char} {lo hi i : Nat}
    (h : rfindDot text lo hi = some i) : lo ≤ i ∧ i < hi := by
  unfold rfindDot at h
  have hmem := getLastQ_mem _ _ h
  rw [List.mem_filter] at hmem
  obtain ⟨hrange, hcond⟩ := hmem
  rw [List.mem_range] at hrange
  rw [Bool.and_eq_true, decide_eq_true_iff] at hcond
  exact ⟨hcond.1, lt_of_lt_of_le hrange (min_le_left _ _)⟩

/-- Every window ends at least `901` characters past its start:
untrimmed windows span `max_chunk_size = 1000` characters and the
period search never looks below `start + 900`. -/
theorem windowEnd_ge (text : List Char) (start : Nat) :
    start + 901 ≤ windowEnd text start := by
  unfold windowEnd
  have hmax : maxChunkSize = 1000 := rfl
  split
  · rename_i hlt
    cases hfind : rfindDot text (start + maxChunkSize - 100) (start + maxChunkSize) with
    | none => simp [hfind]; omega
    | some se =>
      have hb := rfindDot_bounds hfind
      simp [hfind]
      split
      · omega
      · omega
  · omega

/-- Every window ends at most `max_chunk_size` characters past its start. -/
theorem windowEnd_le (text : List Char) (start : Nat) :
    windowEnd text start ≤ start + maxChunkSize := by
  unfold windowEnd
  split
  · rename_i hlt
    cases hfind : rfindDot text (start + maxChunkSize - 100) (start + maxChunkSize) with
    | none => simp [hfind]
    | some se =>
      have hb := rfindDot_bounds hfind
      simp [hfind]
      split
      · omega
      · omega
  · omega

/-- A window reaching past the text end is never trimmed. -/
theorem windowEnd_of_len_le (text : List Char) (start : Nat)
    (h : text.length ≤ start + maxChunkSize) :
    windowEnd text start = start + maxChunkSize := by
  unfold windowEnd
  rw [if_neg (by omega)]

/-- One-step unfolding of the fueled window loop. -/
theorem splitWindowsF_succ (fuel : Nat) (text : List Char) (start : Nat) :
    splitWindowsF (fuel + 1) text start =
      if start < text.length then
        if text.length ≤ windowEnd text start - chunkOverlap then
          [(start, windowEnd text start)]
        else
          (start, windowEnd text start) ::
            splitWindowsF fuel text (windowEnd text start - chunkOverlap)
      else [] := rfl

/-- With enough fuel and a start inside the text, the window list starts
with the window opened at `start`. -/
theorem splitWindowsF_shape (text : List Char) :
    ∀ (fuel start : Nat), text.length - start < fuel → start < text.length →
      ∃ tl, splitWindowsF fuel text start = (start, windowEnd text start) :: tl := by
  intro fuel start hf hs
  cases fuel with
  | zero => omega
  | succ fuel =>
    rw [splitWindowsF_succ, if_pos hs]
    by_cases hend : text.length ≤ windowEnd text start - chunkOverlap
    · exact ⟨[], by rw [if_pos hend]⟩
    · exact ⟨_, by rw [if_neg hend]⟩

/-- The fuel bound propagates to the recursive call. -/
theorem splitWindowsF_fuel_step {text : List Char} {fuel start : Nat}
    (hf : text.length - start < fuel + 1)
    (hlt : windowEnd text start - chunkOverlap < text.length) :
    text.length - (windowEnd text start - chunkOverlap) < fuel := by
  have hge := windowEnd_ge text start
  have hco : chunkOverlap = 100 := rfl
  omega

/-- Window start offsets strictly increase along the loop. -/
theorem chain_splitWindowsF (text : List Char) :
    ∀ (fuel start : Nat), text.length - start < fuel →
      List.Chain' (fun a b : Nat × Nat => a.1 < b.1) (splitWindowsF fuel text start) := by
  intro fuel
  induction fuel with
  | zero => intro start h; omega
  | succ fuel ih =>
    intro start h
    rw [splitWindowsF_succ]
    by_cases hs : start < text.length
    · rw [if_pos hs]
      by_cases hend : text.length ≤ windowEnd text start - chunkOverlap
      · rw [if_pos hend]
        exact List.chain'_singleton _
      · rw [if_neg hend]
        have hge := windowEnd_ge text start
        have hco : chunkOverlap = 100 := rfl
        have hlt : windowEnd text start - chunkOverlap < text.length := by omega
        have hf2 := splitWindowsF_fuel_step h hlt
        obtain ⟨tl, htl⟩ := splitWindowsF_shape text fuel _ hf2 hlt
        rw [htl, List.chain'_cons]
        constructor
        · show start < windowEnd text start - chunkOverlap
          omega
        · rw [← htl]
          exact ih _ hf2
    · rw [if_neg hs]
      exact List.chain'_nil

/-- The loop's final window reaches (at least) the end of the text. -/
theorem last_splitWindowsF (text : List Char) :
    ∀ (fuel start : Nat), text.length - start < fuel → start < text.length →
      ∃ w : Nat × Nat, (splitWindowsF fuel text start).getLast? = some w ∧
        text.length ≤ w.2 := by
  intro fuel
  induction fuel with
  | zero => intro start h; omega
  | succ fuel ih =>
    intro start h hs
    rw [splitWindowsF_succ, if_pos hs]
    by_cases hend : text.length ≤ windowEnd text start - chunkOverlap
    · rw [if_pos hend]
      refine ⟨(start, windowEnd text start), rfl, ?_⟩
      have hco : chunkOverlap = 100 := rfl
      simp
      omega
    · rw [if_neg hend]
      have hge := windowEnd_ge text start
      have hco : chunkOverlap = 100 := rfl
      have hlt : windowEnd text start - chunkOverlap < text.length := by omega
      have hf2 := splitWindowsF_fuel_step h hlt
      obtain ⟨w, hw, hwe⟩ := ih _ hf2 hlt
      obtain ⟨tl, htl⟩ := splitWindowsF_shape text fuel _ hf2 hlt
      refine ⟨w, ?_, hwe⟩
      rw [htl] at hw ⊢
      rw [List.getLast?_cons_cons]
      exact hw

/-- Concatenating the raw window slices, each minus its overlap with its
predecessor, reproduces the text from the loop's start. -/
theorem recon_splitWindowsF (text : List Char) :
    ∀ (fuel start : Nat), text.length - start < fuel → start < text.length →
      reconW text (splitWindowsF fuel text start) = text.drop start := by
  intro fuel
  induction fuel with
  | zero => intro start h; omega
  | succ fuel ih =>
    intro start h hs
    rw [splitWindowsF_succ, if_pos hs]
    have hge := windowEnd_ge text start
    have hco : chunkOverlap = 100 := rfl
    by_cases hend : text.length ≤ windowEnd text start - chunkOverlap
    · rw [if_pos hend]
      show pySlice text start (windowEnd text start) = text.drop start
      unfold pySlice
      rw [List.take_of_length_le (by omega)]
    · rw [if_neg hend]
      have hlt : windowEnd text start - chunkOverlap < text.length := by omega
      have hf2 := splitWindowsF_fuel_step h hlt
      obtain ⟨tl, htl⟩ := splitWindowsF_shape text fuel _ hf2 hlt
      rw [htl]
      show pySlice text start (windowEnd text start) ++
          (reconW text ((windowEnd text start - chunkOverlap, _) :: tl)).drop
            (windowEnd text start - (windowEnd text start - chunkOverlap)) =
          text.drop start
      rw [← htl, ih _ hf2 hlt]
      have hdrop : (windowEnd text start) - (windowEnd text start - chunkOverlap) =
          chunkOverlap := by omega
      rw [hdrop, List.drop_drop]
      have harg : windowEnd text start - chunkOverlap + chunkOverlap =
          windowEnd text start := by omega
      rw [harg]
      exact drop_take_drop text start (windowEnd text start) (by omega)

/-! ## Helper lemmas: tag sets -/

/-- The dedup fold underlying `listSet` preserves the set of elements. -/
theorem listSet_foldl_toFinset : ∀ (l acc : List (List Char)),
    (l.foldl (fun acc x => if x ∈ acc then acc else acc ++ [x]) acc).toFinset =
      acc.toFinset ∪ l.toFinset := by
  intro l
  induction l with
  | nil => intro acc; simp
  | cons x t ih =>
    intro acc
    rw [List.foldl_cons, ih]
    by_cases hx : x ∈ acc
    · rw [if_pos hx]
      ext a
      simp only [Finset.mem_union, List.mem_toFinset, List.mem_cons]
      constructor
      · tauto
      · rintro (h | rfl | h)
        · exact Or.inl h
        · exact Or.inl hx
        · exact Or.inr h
    · rw [if_neg hx, List.toFinset_append]
      ext a
      simp only [Finset.mem_union, List.mem_toFinset, List.mem_cons,
        List.mem_singleton]
      tauto

/-- `listSet` preserves the set of elements. -/
theorem listSet_toFinset (l : List (List Char)) : (listSet l).toFinset = l.toFinset := by
  unfold listSet
  rw [listSet_foldl_toFinset]
  simp

/-! ## Claim theorems -/

/-- C10: `_normalize_document` changes only the tags and text fields of
the document's sections; the metadata, the definitions list, each
section's id, title, clause type, referenced definitions, parent
section and page number, and the number and order of sections are
unchanged (the function returns the mutated input document, which the
embedding renders as these frame equalities). -/
theorem c10_normalize_frame (d : LegalDocumentR) :
    (normalizeDocument d).metadata = d.metadata ∧
    (normalizeDocument d).definitions = d.definitions ∧
    (normalizeDocument d).sections.map
        (fun s => (s.id, s.title, s.clauseType, s.definitions, s.parentSection, s.pageNumber)) =
      d.sections.map
        (fun s => (s.id, s.title, s.clauseType, s.definitions, s.parentSection, s.pageNumber)) ∧
    (normalizeDocument d).sections.length = d.sections.length := by
  refine ⟨rfl, rfl, ?_, ?_⟩
  · show ((d.sections.map _).map _).map _ = _
    rw [List.map_map, List.map_map]
    rfl
  · show ((d.sections.map _).map _).length = _
    rw [List.length_map, List.length_map]

/-- C9: `_normalize_tags` returns, as a set, the union of the input tags
with the synonym-matched canonical terms and the abbreviation-derived
tags; running it again on its own output (same content) returns the
same tag set. -/
theorem c9_normalize_tags (existing : List (List Char)) (content : List Char) :
    (normalizeTagsL existing content).toFinset =
      existing.toFinset ∪ synTags content ∪ abbrevTags content ∧
    (normalizeTagsL (normalizeTagsL existing content) content).toFinset =
      (normalizeTagsL existing content).toFinset := by
  have hbase : ∀ e : List (List Char), (normalizeTagsL e content).toFinset =
      e.toFinset ∪ synTags content ∪ abbrevTags content := by
    intro e
    unfold normalizeTagsL
    rw [listSet_toFinset, List.toFinset_append, List.toFinset_append,
      Finset.union_assoc, Finset.union_assoc]
    rfl
  refine ⟨hbase existing, ?_⟩
  rw [hbase _, hbase existing]
  ext a
  simp only [Finset.mem_union]
  tauto

/-- C6: `chunk_document` is deterministic — two runs on the same
normalized document (and the same digest function) produce identical
chunk lists: equal as lists, with identical contents, identical chunk
identifiers and equal length. -/
theorem c6_chunk_deterministic (h : List Char → List Char)
    (d1 d2 : LegalDocumentR) (heq : d1 = d2) :
    chunkDocument h d1 = chunkDocument h d2 ∧
    (chunkDocument h d1).map (fun c => c.content) =
      (chunkDocument h d2).map (fun c => c.content) ∧
    (chunkDocument h d1).map (fun c => c.metadata.chunkId) =
      (chunkDocument h d2).map (fun c => c.metadata.chunkId) ∧
    (chunkDocument h d1).length = (chunkDocument h d2).length := by
  subst heq
  exact ⟨rfl, rfl, rfl, rfl⟩

/-- C6 witness: the theorem applied to a concrete document. -/
theorem c6_witness :
    chunkDocument hashStub exampleDoc = chunkDocument hashStub exampleDoc ∧
    (chunkDocument hashStub exampleDoc).map (fun c => c.content) =
      (chunkDocument hashStub exampleDoc).map (fun c => c.content) ∧
    (chunkDocument hashStub exampleDoc).map (fun c => c.metadata.chunkId) =
      (chunkDocument hashStub exampleDoc).map (fun c => c.metadata.chunkId) ∧
    (chunkDocument hashStub exampleDoc).length = (chunkDocument hashStub exampleDoc).length :=
  c6_chunk_deterministic hashStub exampleDoc exampleDoc rfl

/-- C2 (amended): both classifiers evaluate their ordered keyword rules
on the lower-cased title only — content is never consulted.  In the PDF
classifier the purchase/sale rule comes first, so any title containing
a purchase or sale keyword yields `Purchase and Sale`; in the XML
classifier the rate/price rule comes first, so a title like
`"Sale Price"` yields `Price` there. -/
theorem c2_classifier_rule_order :
    (∀ t : List Char,
      (containsSub (pyLower t) (chars "purchase") ||
        containsSub (pyLower t) (chars "sale")) = true →
      classifyClausePDF t = ClauseType.purchaseAndSale) ∧
    (∀ t c : List Char,
      (containsSub (pyLower t) (chars "rate") ||
        containsSub (pyLower t) (chars "price")) = true →
      classifyClauseXML t c = ClauseType.price) ∧
    (∀ t c1 c2 : List Char, classifyClauseXML t c1 = classifyClauseXML t c2) ∧
    classifyClausePDF (chars "Sale Price") = ClauseType.purchaseAndSale ∧
    classifyClauseXML (chars "Sale Price") [] = ClauseType.price := by
  refine ⟨?_, ?_, ?_, by decide, by decide⟩
  · intro t h
    unfold classifyClausePDF
    rw [if_pos h]
  · intro t c h
    unfold classifyClauseXML
    rw [if_pos h]
  · intro t c1 c2
    rfl

/-- C2 witness: the theorem applied at the title `"Sale Price"`. -/
theorem c2_witness :
    ((containsSub (pyLower (chars "Sale Price")) (chars "purchase") ||
        containsSub (pyLower (chars "Sale Price")) (chars "sale")) = true ∧
      classifyClausePDF (chars "Sale Price") = ClauseType.purchaseAndSale) ∧
    ((containsSub (pyLower (chars "Sale Price")) (chars "rate") ||
        containsSub (pyLower (chars "Sale Price")) (chars "price")) = true ∧
      classifyClauseXML (chars "Sale Price") (chars "c") = ClauseType.price) ∧
    classifyClauseXML (chars "Term") (chars "a") = classifyClauseXML (chars "Term") (chars "b") :=
  ⟨⟨by decide, c2_classifier_rule_order.1 (chars "Sale Price") (by decide)⟩,
   ⟨by decide, c2_classifier_rule_order.2.1 (chars "Sale Price") (chars "c") (by decide)⟩,
   c2_classifier_rule_order.2.2.1 (chars "Term") (chars "a") (chars "b")⟩

/-- C2 counterexample: `"Sale Price"` contains both a purchase/sale and
a price keyword, yet the XML classifier returns `Price`, not
`Purchase and Sale` — its price rule is checked first. -/
theorem c2_xml_sale_price_counterexample :
    classifyClauseXML (chars "Sale Price") [] = ClauseType.price ∧
    ClauseType.price ≠ ClauseType.purchaseAndSale :=
  ⟨by decide, by decide⟩

/-- C5 (amended): every Definition produces exactly one chunk (one per
entry of `document.definitions`), of chunk type `definition`, content
`"Term" means Definition`, tags `[definition, normalized term]`, chunk
id built from the document id and the digest of the term; the owning
section id falls back to the `"definitions"` sentinel when the
Definition's section id is absent *or empty* (Python falsy test). -/
theorem c5_definition_chunk (h : List Char → List Char)
    (doc : LegalDocumentR) (defn : DefinitionR) :
    (chunkDefinition h doc defn).content =
      chars "\"" ++ defn.term ++ chars "\" means " ++ defn.definition ∧
    (chunkDefinition h doc defn).metadata.chunkType = chars "definition" ∧
    (chunkDefinition h doc defn).metadata.tags =
      [chars "definition", underscoreLower defn.term] ∧
    (chunkDefinition h doc defn).metadata.chunkId =
      doc.metadata.documentId ++ chars "_def_" ++ h defn.term ∧
    (chunkDefinition h doc defn).metadata.chunkIndex = 0 ∧
    (chunkDefinition h doc defn).metadata.sectionId =
      (match defn.sectionId with
       | none => chars "definitions"
       | some s => if s.isEmpty then chars "definitions" else s) ∧
    chunkDocument h doc =
      (doc.sections.map (chunkSection doc)).flatten ++
        doc.definitions.map (chunkDefinition h doc) :=
  ⟨rfl, rfl, rfl, rfl, rfl, rfl, rfl⟩

/-- C5 counterexample: a Definition whose section id is present but
empty is sent to the `"definitions"` sentinel, not kept as its own
(empty) section id as the claim states. -/
theorem c5_empty_section_id_counterexample :
    defnEmptySection.sectionId = some [] ∧
    (chunkDefinition hashStub exampleDoc defnEmptySection).metadata.sectionId =
      chars "definitions" ∧
    chars "definitions" ≠ ([] : List Char) :=
  ⟨rfl, rfl, by decide⟩

/-! ## Helper lemmas: chunk metadata projections -/

/-- All chunks of a section carry the section's heading triple. -/
theorem chunkSection_meta_proj (doc : LegalDocumentR) (s : SectionR) :
    (chunkSection doc s).map
        (fun c => (c.metadata.headingNumber, c.metadata.headingLevel,
          c.metadata.parentHeadingNumber)) =
      List.replicate (chunkSection doc s).length
        ((sectionHeadingMeta s).1, (sectionHeadingMeta s).2.1, (sectionHeadingMeta s).2.2) := by
  unfold chunkSection
  by_cases hlen : s.text.length ≤ maxChunkSize
  · rw [if_pos hlen]
    rfl
  · rw [if_neg hlen, List.map_map, List.length_map]
    have hfun : ((fun c : ProcessedChunkR =>
          (c.metadata.headingNumber, c.metadata.headingLevel,
            c.metadata.parentHeadingNumber)) ∘
        (fun p : Nat × List Char => mkClauseChunk doc s (sectionHeadingMeta s) p.1 p.2)) =
        (fun _ : Nat × List Char =>
          ((sectionHeadingMeta s).1, (sectionHeadingMeta s).2.1,
            (sectionHeadingMeta s).2.2)) := rfl
    rw [hfun]
    exact List.map_const' _ _

/-- All chunks of a section carry the section's heading level. -/
theorem chunkSection_level_proj (doc : LegalDocumentR) (s : SectionR) :
    (chunkSection doc s).map (fun c => c.metadata.headingLevel) =
      List.replicate (chunkSection doc s).length (sectionHeadingMeta s).2.1 := by
  unfold chunkSection
  by_cases hlen : s.text.length ≤ maxChunkSize
  · rw [if_pos hlen]
    rfl
  · rw [if_neg hlen, List.map_map, List.length_map]
    have hfun : ((fun c : ProcessedChunkR => c.metadata.headingLevel) ∘
        (fun p : Nat × List Char => mkClauseChunk doc s (sectionHeadingMeta s) p.1 p.2)) =
        (fun _ : Nat × List Char => (sectionHeadingMeta s).2.1) := rfl
    rw [hfun]
    exact List.map_const' _ _

/-- A dotted-numeric identifier has at least two components. -/
theorem isDottedNumeric_two_le {l : List Char} (h : isDottedNumeric l = true) :
    2 ≤ (splitOnChar '.' l).length := by
  unfold isDottedNumeric at h
  rw [Bool.and_eq_true, decide_eq_true_iff] at h
  exact h.1

/-- C7 (amended): for a section whose *stripped* identifier matches the
anchored dotted pattern `\d+(\.\d+)+` (which requires at least one dot),
every chunk's heading number is that identifier, its level is the
number of dot-separated components and its parent is the identifier
minus its last component.  An identifier like `"5"` does *not* match
the pattern; such a section's heading metadata is instead parsed from
its text, and is absent — not level 1 — when the text carries no dotted
number. -/
theorem c7_heading_anchor :
    (∀ (doc : LegalDocumentR) (s : SectionR), isDottedNumeric (pyStrip s.id) = true →
      (chunkSection doc s).map
          (fun c => (c.metadata.headingNumber, c.metadata.headingLevel,
            c.metadata.parentHeadingNumber)) =
        List.replicate (chunkSection doc s).length
          (some (pyStrip s.id), some ((splitOnChar '.' (pyStrip s.id)).length),
            some (joinDots ((splitOnChar '.' (pyStrip s.id)).dropLast)))) ∧
    (∀ (doc : LegalDocumentR) (s : SectionR), s.id = chars "5" →
      extractHeadingMeta s.text = none →
      (chunkSection doc s).map (fun c => c.metadata.headingLevel) =
        List.replicate (chunkSection doc s).length none) := by
  constructor
  · intro doc s h
    rw [chunkSection_meta_proj]
    have hmeta : sectionHeadingMeta s =
        (some (pyStrip s.id), some ((splitOnChar '.' (pyStrip s.id)).length),
          some (joinDots ((splitOnChar '.' (pyStrip s.id)).dropLast))) := by
      unfold sectionHeadingMeta
      rw [if_pos h, if_pos (by have := isDottedNumeric_two_le h; omega)]
    rw [hmeta]
  · intro doc s hid hmeta
    rw [chunkSection_level_proj]
    have h5 : sectionHeadingMeta s = (none, none, none) := by
      unfold sectionHeadingMeta
      rw [hid]
      rw [if_neg (by decide), hmeta]
    rw [h5]

/-- C7 witness: the theorem applied to a section with id `3.1` and a
section with id `5` whose text has no dotted heading. -/
theorem c7_witness :
    (isDottedNumeric (pyStrip secDotted.id) = true ∧
      (chunkSection exampleDoc secDotted).map
          (fun c => (c.metadata.headingNumber, c.metadata.headingLevel,
            c.metadata.parentHeadingNumber)) =
        List.replicate (chunkSection exampleDoc secDotted).length
          (some (pyStrip secDotted.id),
            some ((splitOnChar '.' (pyStrip secDotted.id)).length),
            some (joinDots ((splitOnChar '.' (pyStrip secDotted.id)).dropLast)))) ∧
    (secFive.id = chars "5" ∧ extractHeadingMeta secFive.text = none ∧
      (chunkSection exampleDoc secFive).map (fun c => c.metadata.headingLevel) =
        List.replicate (chunkSection exampleDoc secFive).length none) :=
  ⟨⟨by decide, c7_heading_anchor.1 exampleDoc secDotted (by decide)⟩,
   ⟨rfl, by decide, c7_heading_anchor.2 exampleDoc secFive rfl (by decide)⟩⟩

/-- C7 counterexample: the section with identifier `"5"` (text without
a dotted number) gets *no* heading level, not level 1 as the claim
states. -/
theorem c7_level_one_counterexample :
    (chunkSection exampleDoc secFive).map (fun c => c.metadata.headingLevel) =
      [(none : Option Nat)] ∧
    (none : Option Nat) ≠ some 1 :=
  ⟨by decide, by decide⟩

/-- C8 (amended): chunking a degenerate (blank after stripping) section
text never raises (the embedding is total) and yields at most one
chunk; every chunk produced by the sliding-window split is non-blank
(windows are stripped and empty ones discarded).  The single-chunk path
for at-most-threshold text, however, copies the section text verbatim,
so a blank short section yields one chunk with blank content. -/
theorem c8_degenerate_sections :
    (∀ (doc : LegalDocumentR) (s : SectionR), pyStrip s.text = [] →
      (chunkSection doc s).length ≤ 1) ∧
    (∀ (t c : List Char), c ∈ splitTextWithOverlap t → pyStrip c ≠ []) := by
  constructor
  · intro doc s h
    unfold chunkSection
    by_cases hlen : s.text.length ≤ maxChunkSize
    · rw [if_pos hlen]
      simp
    · rw [if_neg hlen, List.length_map]
      have hall := all_ws_of_pyStrip_eq_nil _ h
      have hsplit : splitTextWithOverlap s.text = [] := by
        unfold splitTextWithOverlap
        rw [List.filter_eq_nil_iff]
        intro a ha
        rw [List.mem_map] at ha
        obtain ⟨w, _, hwa⟩ := ha
        have hblank : pyStrip (pySlice s.text w.1 w.2) = [] :=
          pyStrip_eq_nil_of_all _ (fun c hc => hall c (mem_pySlice hc))
        rw [← hwa, hblank]
        decide
      rw [hsplit]
      decide
  · intro t c hc hnil
    unfold splitTextWithOverlap at hc
    rw [List.mem_filter] at hc
    obtain ⟨hmem, hne⟩ := hc
    rw [List.mem_map] at hmem
    obtain ⟨w, _, hw⟩ := hmem
    have hcc : pyStrip c = c := by rw [← hw, pyStrip_idem]
    rw [hcc] at hnil
    rw [hnil] at hne
    simp at hne

/-- C8 witness: the theorem applied to a whitespace-only short section
and to a concrete window chunk of a 1001-character text. -/
theorem c8_witness :
    (pyStrip secBlankText.text = [] ∧
      (chunkSection exampleDoc secBlankText).length ≤ 1) ∧
    (chars "abc" ∈ splitTextWithOverlap (chars "abc") ∧
      pyStrip (chars "abc") ≠ []) :=
  ⟨⟨by decide, c8_degenerate_sections.1 exampleDoc secBlankText (by decide)⟩,
   ⟨by decide, c8_degenerate_sections.2 (chars "abc") (chars "abc") (by decide)⟩⟩

/-- C8 counterexample: a section with empty text yields one chunk whose
content is blank, refuting "no emitted chunk ever has blank content". -/
theorem c8_blank_chunk_counterexample :
    (chunkSection exampleDoc secEmptyText).map (fun c => c.content) = [([] : List Char)] ∧
    pyStrip ([] : List Char) = [] :=
  ⟨by decide, rfl⟩

/-! ## Helper lemmas: the 1001-character boundary -/

/-- On a 1001-character text the loop produces exactly two windows. -/
theorem splitWindows_1001 (t : List Char) (h : t.length = 1001) :
    splitWindows t =
      [(0, windowEnd t 0), (windowEnd t 0 - 100, windowEnd t 0 + 900)] := by
  have hge := windowEnd_ge t 0
  have hle := windowEnd_le t 0
  have hmax : maxChunkSize = 1000 := rfl
  have hco : chunkOverlap = 100 := rfl
  unfold splitWindows
  rw [splitWindowsF_succ, if_pos (by omega), if_neg (by omega)]
  have h1001 : t.length = 1000 + 1 := by omega
  rw [h1001, splitWindowsF_succ, if_pos (by omega),
    windowEnd_of_len_le t (windowEnd t 0 - chunkOverlap) (by omega),
    if_pos (by omega)]
  have harith : windowEnd t 0 - chunkOverlap + maxChunkSize = windowEnd t 0 + 900 := by
    omega
  rw [harith, hco]

/-- On a whitespace-free 1001-character text both windows survive the
strip-and-discard filter: exactly two chunks are emitted. -/
theorem splitText_1001_no_ws (t : List Char) (h : t.length = 1001)
    (hws : ∀ c ∈ t, pyIsSpace c = false) :
    (splitTextWithOverlap t).length = 2 := by
  have hge := windowEnd_ge t 0
  have hle := windowEnd_le t 0
  have hmax : maxChunkSize = 1000 := rfl
  unfold splitTextWithOverlap
  rw [splitWindows_1001 t h]
  rw [List.map_cons, List.map_cons, List.map_nil]
  have hs1 : pyStrip (pySlice t 0 (windowEnd t 0)) = pySlice t 0 (windowEnd t 0) :=
    pyStrip_eq_self_of_no_ws _ (fun c hc => hws c (mem_pySlice hc))
  have hs2 : pyStrip (pySlice t (windowEnd t 0 - 100) (windowEnd t 0 + 900)) =
      pySlice t (windowEnd t 0 - 100) (windowEnd t 0 + 900) :=
    pyStrip_eq_self_of_no_ws _ (fun c hc => hws c (mem_pySlice hc))
  rw [hs1, hs2]
  have hlen1 : (pySlice t 0 (windowEnd t 0)).length = windowEnd t 0 := by
    unfold pySlice
    rw [List.drop_zero, List.length_take]
    omega
  have hlen2 : (pySlice t (windowEnd t 0 - 100) (windowEnd t 0 + 900)).length =
      t.length - (windowEnd t 0 - 100) := by
    unfold pySlice
    rw [List.take_of_length_le (by omega), List.length_drop]
  have hne1 : (pySlice t 0 (windowEnd t 0)).isEmpty = false := by
    rw [← Bool.not_eq_true, List.isEmpty_iff]
    intro e
    rw [e] at hlen1
    simp at hlen1
    omega
  have hne2 : (pySlice t (windowEnd t 0 - 100) (windowEnd t 0 + 900)).isEmpty = false := by
    rw [← Bool.not_eq_true, List.isEmpty_iff]
    intro e
    rw [e] at hlen2
    simp at hlen2
    omega
  rw [List.filter_cons, List.filter_cons, List.filter_nil,
    if_pos (by rw [hne1]; rfl), if_pos (by rw [hne2]; rfl)]
  rfl

/-- C3 (amended): a section with text of at most the 1000-character
threshold yields exactly one chunk carrying the whole text at index 0;
a section of exactly 1001 characters yields at least two chunks
provided the text is not whitespace-degenerate (here: no whitespace at
all) — windows that strip to nothing are discarded, so degenerate
1001-character texts can yield fewer. -/
theorem c3_chunk_threshold :
    (∀ (doc : LegalDocumentR) (s : SectionR), s.text.length ≤ maxChunkSize →
      (chunkSection doc s).map (fun c => (c.content, c.metadata.chunkIndex)) =
        [(s.text, 0)]) ∧
    (∀ (doc : LegalDocumentR) (s : SectionR), s.text.length = 1001 →
      (∀ c ∈ s.text, pyIsSpace c = false) →
      2 ≤ (chunkSection doc s).length) := by
  constructor
  · intro doc s h
    unfold chunkSection
    rw [if_pos h]
    rfl
  · intro doc s hlen hws
    unfold chunkSection
    rw [if_neg (by rw [hlen]; decide), List.length_map, List.enum_length,
      splitText_1001_no_ws s.text hlen hws]

set_option maxRecDepth 4000 in
/-- C3 witness: the theorem applied to a short section and to a
whitespace-free 1001-character section. -/
theorem c3_witness :
    (secDotted.text.length ≤ maxChunkSize ∧
      (chunkSection exampleDoc secDotted).map (fun c => (c.content, c.metadata.chunkIndex)) =
        [(secDotted.text, 0)]) ∧
    (secNoWs1001.text.length = 1001 ∧
      2 ≤ (chunkSection exampleDoc secNoWs1001).length) :=
  ⟨⟨by decide, c3_chunk_threshold.1 exampleDoc secDotted (by decide)⟩,
   ⟨by simp [secNoWs1001],
    c3_chunk_threshold.2 exampleDoc secNoWs1001 (by simp [secNoWs1001])
      (by
        intro c hc
        simp only [secNoWs1001] at hc
        rw [List.mem_replicate] at hc
        rw [hc.2]
        decide)⟩⟩

set_option maxRecDepth 40000 in
/-- C3 counterexample: 900 letters followed by 101 spaces is a
1001-character text, yet only one chunk is emitted — the second window
strips to nothing and is discarded. -/
theorem c3_tail_spaces_counterexample :
    secTailSpaces.text.length = 1001 ∧
    (chunkSection exampleDoc secTailSpaces).length = 1 :=
  ⟨by simp [secTailSpaces], by decide⟩

/-- C4 (amended): for text longer than the threshold the window start
offsets strictly increase and the final window reaches the text end;
concatenating the *raw window slices*, each minus its 100-character
overlap with its predecessor, reproduces the text exactly.  The emitted
chunk contents, however, are those slices *stripped of leading and
trailing whitespace* (blank ones discarded), so concatenating chunk
contents reproduces the text only up to that trimming. -/
theorem c4_window_monotone_coverage (t : List Char) (h : maxChunkSize < t.length) :
    List.Chain' (· < ·) ((splitWindows t).map Prod.fst) ∧
    splitWindows t ≠ [] ∧
    t.length ≤ ((splitWindows t).getLastD (0, 0)).2 ∧
    reconW t (splitWindows t) = t ∧
    splitTextWithOverlap t =
      ((splitWindows t).map (fun w => pyStrip (pySlice t w.1 w.2))).filter
        (fun c => !c.isEmpty) := by
  have hmax : maxChunkSize = 1000 := rfl
  have h0 : 0 < t.length := by omega
  have hf : t.length - 0 < t.length + 1 := by omega
  obtain ⟨w, hw, hwe⟩ := last_splitWindowsF t (t.length + 1) 0 hf h0
  have hw' : (splitWindows t).getLast? = some w := hw
  refine ⟨?_, ?_, ?_, ?_, rfl⟩
  · rw [List.chain'_map]
    exact chain_splitWindowsF t (t.length + 1) 0 hf
  · intro he
    rw [he] at hw'
    simp at hw'
  · rw [List.getLastD_eq_getLast?, hw']
    exact hwe
  · have hrec := recon_splitWindowsF t (t.length + 1) 0 hf h0
    rw [List.drop_zero] at hrec
    exact hrec

/-- C4 witness: the theorem applied to a 1001-character text. -/
theorem c4_witness :
    List.Chain' (· < ·) ((splitWindows (List.replicate 1001 'a')).map Prod.fst) ∧
    splitWindows (List.replicate 1001 'a') ≠ [] ∧
    (List.replicate 1001 'a').length ≤
      ((splitWindows (List.replicate 1001 'a')).getLastD (0, 0)).2 ∧
    reconW (List.replicate 1001 'a') (splitWindows (List.replicate 1001 'a')) =
      List.replicate 1001 'a' ∧
    splitTextWithOverlap (List.replicate 1001 'a') =
      ((splitWindows (List.replicate 1001 'a')).map
        (fun w => pyStrip (pySlice (List.replicate 1001 'a') w.1 w.2))).filter
        (fun c => !c.isEmpty) :=
  c4_window_monotone_coverage (List.replicate 1001 'a')
    (by rw [show maxChunkSize = 1000 from rfl, List.length_replicate]; omega)

set_option maxRecDepth 40000 in
/-- C4 counterexample: on a 1001-character text starting with a space,
concatenating the emitted chunk contents with each chunk's fixed
100-character overlap removed does not reproduce the text — the leading
space was stripped from the first chunk and belongs to no other chunk. -/
theorem c4_strip_coverage_counterexample :
    tLeadingSpace.length = 1001 ∧
    reconFromChunks (splitTextWithOverlap tLeadingSpace) ≠ tLeadingSpace :=
  ⟨by
    show (' ' :: List.replicate 1000 'a').length = 1001
    rw [List.length_cons, List.length_replicate],
   by decide⟩

/-- C1: evaluating the embedded `_extract_sections` of the PDF adapter
on a two-heading input: the first section is emitted with *empty* text
(its accumulated body line is discarded); only the final flushed
section carries its accumulated text. -/
theorem c1_pdf_intermediate_text_dropped :
    (extractSectionsPDF pdfTwoHeadings []).map (fun s => (s.id, s.text)) =
      [(chars "1", ([] : List Char)),
        (chars "2", chars "2. PRICE AND PAYMENT.\nThe price is fixed.")] ∧
    (extractSectionsPDF pdfTwoHeadings []).length = 2 :=
  ⟨by decide, by decide⟩
